import Mathlib

/-!
Verification of the CSV comparison tool against its specification.

The repository has two React source files (`src/App.tsx` and an unnamed
second file) whose local logic is: CSV parsing and normalization
(`processCSV` with its inner `removeLeadingBlankColumns`), prompt
construction (`getPrompt` in `App.tsx`, an inline builder in the other
file), code-fence stripping of the model reply, and the `processWithAI` /
`processWithOpenAI` action flow.

JavaScript strings are modelled as `List Char`.  The JavaScript
standard-library operations the code uses (`String.prototype.split` with a
single-character separator, `String.prototype.trim`, the
`/^"|"$/g` replacement, `Array.prototype.join`) are modelled first; the
repository's functions are translated on top of them.  Top-level entry
points take and return `String`.  The completion service is an external
collaborator; the action flow takes its reply as an explicit
`Except String String` argument and returns the list of issued request
prompts alongside the new state.
-/

/-- Whitespace test for the characters matched by JavaScript `\s` and
trimmed by `String.prototype.trim`: tab, line feed, vertical tab, form
feed, carriage return, space, no-break space, ogham space mark, the
en-quad through hair-space range, line separator, paragraph separator,
narrow no-break space, medium mathematical space, ideographic space, and
the byte-order mark. -/
def isWS (c : Char) : Bool :=
  c = ' ' || c = '\t' || c = '\n' || c = '\r' || c = '\x0b' || c = '\x0c'
    || c = '\u00A0' || c = '\u1680' || c = '\u2000' || c = '\u2001'
    || c = '\u2002' || c = '\u2003' || c = '\u2004' || c = '\u2005'
    || c = '\u2006' || c = '\u2007' || c = '\u2008' || c = '\u2009'
    || c = '\u200A' || c = '\u2028' || c = '\u2029' || c = '\u202F'
    || c = '\u205F' || c = '\u3000' || c = '\uFEFF'

/-- Model of JavaScript `String.prototype.trim`. -/
def trimWS (s : List Char) : List Char :=
  ((s.dropWhile isWS).reverse.dropWhile isWS).reverse

/-- Removes one leading double-quote character, if present. -/
def stripLeadQuote : List Char → List Char
  | [] => []
  | x :: rest => if x = '"' then rest else x :: rest

/-- Model of `.replace(/^"|"$/g, '')`: one leading double quote is
removed, then one trailing double quote of what remains. -/
def stripQuotes (s : List Char) : List Char :=
  (stripLeadQuote (stripLeadQuote s).reverse).reverse

/-- The cell transformation `cell.trim().replace(/^"|"$/g, '')` applied to
every parsed cell in `processCSV`. -/
def cleanCell (s : List Char) : List Char :=
  stripQuotes (trimWS s)

/-- Helper for `splitOnC`: the chunk before the first separator, and the
remaining chunks after each later separator. -/
def splitAux (c : Char) : List Char → List Char × List (List Char)
  | [] => ([], [])
  | x :: xs =>
    let p := splitAux c xs
    if x = c then ([], p.1 :: p.2) else (x :: p.1, p.2)

/-- Model of JavaScript `String.prototype.split` with a single-character
separator: always returns at least one chunk, and one more chunk per
separator occurrence. -/
def splitOnC (c : Char) (s : List Char) : List (List Char) :=
  (splitAux c s).1 :: (splitAux c s).2

/-- Model of JavaScript `Array.prototype.join` on character lists. -/
def joinWith (sep : List Char) : List (List Char) → List Char
  | [] => []
  | [x] => x
  | x :: y :: rest => x ++ sep ++ joinWith sep (y :: rest)

/-- One parsed CSV line of `processCSV` in `src/App.tsx`:
`line.split(',').map(cell => cell.trim().replace(/^"|"$/g, ''))`. -/
def parseLine (line : List Char) : List (List Char) :=
  (splitOnC ',' line).map cleanCell

/-- The parsed lines of `processCSV`: `csvText.split('\n').map(...)`. -/
def parseLines (s : List Char) : List (List (List Char)) :=
  (splitOnC '\n' s).map parseLine

/-- The JavaScript test `row[j] !== ''` used inside
`removeLeadingBlankColumns`: an out-of-range access yields `undefined`,
which is different from `''`, so a missing cell counts as non-blank. -/
def cellNonBlankJS (row : List (List Char)) (j : Nat) : Bool :=
  match row[j]? with
  | some c => !c.isEmpty
  | none => true

/-- The test `data.some(row => row[firstNonBlankColIndex] !== '')`. -/
def colCheckJS (data : List (List (List Char))) (j : Nat) : Bool :=
  data.any (fun row => cellNonBlankJS row j)

/-- Bounded linear search modelling the `while` loop of
`removeLeadingBlankColumns`: starting at index `k` with `fuel` indices
left below the bound, return the first index satisfying `p`, or the
bound `k + fuel`. -/
def boundedFind (p : Nat → Bool) : Nat → Nat → Nat
  | 0, k => k
  | fuel + 1, k => if p k then k else boundedFind p fuel (k + 1)

/-- The inner `removeLeadingBlankColumns` of `processCSV` in
`src/App.tsx`: find the first non-blank column index (bounded by the
length of the first row) and slice it off every row. -/
def removeLeadingBlankColumns : List (List (List Char)) → List (List (List Char))
  | [] => []
  | first :: rest =>
    let k := boundedFind (colCheckJS (first :: rest)) first.length 0
    (first :: rest).map (fun row => row.drop k)

/-- The header line `lines[0]` of `processCSV`. -/
def rawHeaders (s : List Char) : List (List Char) :=
  (parseLines s).headD []

/-- The data lines of `processCSV`:
`lines.slice(1).filter(line => line.some(cell => cell))`. -/
def rawRows (s : List Char) : List (List (List Char)) :=
  ((parseLines s).drop 1).filter (fun line => line.any (fun cell => !cell.isEmpty))

/-- The table `[headers, ...data]` that `processCSV` passes to
`removeLeadingBlankColumns`. -/
def tableOf (s : List Char) : List (List (List Char)) :=
  rawHeaders s :: rawRows s

/-- The number of leading columns removed by `removeLeadingBlankColumns`
on the table of `s`: the final value of `firstNonBlankColIndex`. -/
def leadingBlankCols (s : List Char) : Nat :=
  boundedFind (colCheckJS (tableOf s)) (rawHeaders s).length 0

/-- Translation of `processCSV` in `src/App.tsx` at the character-list
level. -/
def processCSVL (s : List Char) : List (List Char) × List (List (List Char)) :=
  let cleaned := removeLeadingBlankColumns (tableOf s)
  (cleaned.headD [], cleaned.drop 1)

/-- Translation of `processCSV` in `src/App.tsx`: parse, drop all-blank
data rows, strip the leading blank columns, and return the cleaned
headers and rows. -/
def processCSV (s : String) : List String × List (List String) :=
  let r := processCSVL s.toList
  (r.1.map (fun c => String.mk c), r.2.map (fun row => row.map (fun c => String.mk c)))


/-- The `formatData` helper inside `getPrompt` of `src/App.tsx`:
`[headers.join(', '), ...data.map(row => row.join(', '))].join('\n')`. -/
def formatData (headers : List String) (data : List (List String)) : String :=
  String.mk (joinWith ['\n']
    (joinWith [',', ' '] (headers.map String.toList)
      :: data.map (fun row => joinWith [',', ' '] (row.map String.toList))))

/-- The fixed text of the `getPrompt` template in `src/App.tsx` before the
first interpolation. -/
def promptIntro : String :=
  "I want to compare these two spreadsheets side-by-side. \n  First collapse each spreadsheet into one column.\n  Make an index from the row and cell data from First spreadsheet.\n  Use the index to match rows and cells in Second spreadsheet.\n  If there is no matching pair, use an empty cell.\n  Double-check each row carefully. \n  Show the result as a **well-formed CSV** with exactly two columns. \n  Do not provide any commentary.\n\n  First spreadsheet:\n  "

/-- The fixed text of the `getPrompt` template in `src/App.tsx` between
the two interpolations. -/
def promptBetween : String :=
  "\n\n  Second spreadsheet:\n  "

/-- Translation of `getPrompt` in `src/App.tsx`. -/
def getPrompt (headers1 : List String) (data1 : List (List String))
    (headers2 : List String) (data2 : List (List String)) : String :=
  promptIntro ++ formatData headers1 data1 ++ promptBetween ++ formatData headers2 data2

/-- Model of `result.replace(/^```csv\s*|\s*```$/g, '')` (line 210 of
`src/App.tsx` and line 127 of the unnamed file): if the text starts with
the six characters of a csv-tagged opening fence, that tag and the
whitespace run after it are removed; if what remains ends with a closing
triple-backtick fence, that fence and the whitespace run before it are
removed. -/
def stripFenceL (s : List Char) : List Char :=
  let s1 := if s.take 6 = "```csv".toList then (s.drop 6).dropWhile isWS else s
  if s1.reverse.take 3 = "```".toList then
    ((s1.reverse.drop 3).dropWhile isWS).reverse
  else s1

/-- String-level wrapper of `stripFenceL`. -/
def stripFence (s : String) : String :=
  String.mk (stripFenceL s.toList)


/-- The provider selection of `src/App.tsx`. -/
inductive Provider where
  | openai
  | deepseek
  | gemini
  | claude
deriving DecidableEq

/-- Result of `selectedProvider.toUpperCase()` on the four provider
identifiers. -/
def providerUpper : Provider → String
  | .openai => "OPENAI"
  | .deepseek => "DEEPSEEK"
  | .gemini => "GEMINI"
  | .claude => "CLAUDE"

/-- The component state of `src/App.tsx` that `processWithAI` reads and
writes (model and provider selection aside from the provider argument). -/
structure AppState where
  file1Data : List (List String)
  file2Data : List (List String)
  headers1 : List String
  headers2 : List String
  processedHeaders : List String
  processedData : List (List String)
  isProcessing : Bool
  apiKey : String
  error : String
  processedResult : Option String
deriving DecidableEq

/-- Model of `processWithAI` in `src/App.tsx`.  The completion service is
external; its reply is the `resp` argument (`Except.error` models a thrown
error, `Except.ok` the extracted reply text, `Except.ok ""` a reply with
no text).  The second component of the result lists the prompts of the
completion requests that were issued. -/
def processWithAI (s : AppState) (selectedProvider : Provider)
    (resp : Except String String) : AppState × List String :=
  if s.apiKey = "" then
    ({ s with error := "Please enter your " ++ providerUpper selectedProvider ++ " API key first" }, [])
  else if s.file1Data.isEmpty || s.file2Data.isEmpty then
    ({ s with error := "Please upload both CSV files first" }, [])
  else
    let prompt := getPrompt s.headers1 s.file1Data s.headers2 s.file2Data
    match resp with
    | .error msg =>
      ({ s with isProcessing := false, error := msg, processedResult := none }, [prompt])
    | .ok result =>
      if result = "" then
        ({ s with isProcessing := false, error := "", processedResult := none }, [prompt])
      else
        let stripped := stripFence result
        let parsed := processCSV stripped
        ({ s with isProcessing := false, error := "", processedResult := some stripped,
                  processedHeaders := parsed.1, processedData := parsed.2 }, [prompt])

namespace Part000

/-- The test `row[j] !== ''` in the unnamed file's
`removeLeadingBlankColumns`. -/
def cellNonBlankJS (row : List (List Char)) (j : Nat) : Bool :=
  match row[j]? with
  | some c => !c.isEmpty
  | none => true

/-- The test `data.some(row => row[firstNonBlankColIndex] !== '')` in the
unnamed file. -/
def colCheckJS (data : List (List (List Char))) (j : Nat) : Bool :=
  data.any (fun row => Part000.cellNonBlankJS row j)

/-- The `while` loop of the unnamed file's `removeLeadingBlankColumns`. -/
def boundedFind (p : Nat → Bool) : Nat → Nat → Nat
  | 0, k => k
  | fuel + 1, k => if p k then k else Part000.boundedFind p fuel (k + 1)

/-- The inner `removeLeadingBlankColumns` of the unnamed file's
`processCSV`. -/
def removeLeadingBlankColumns : List (List (List Char)) → List (List (List Char))
  | [] => []
  | first :: rest =>
    let k := Part000.boundedFind (Part000.colCheckJS (first :: rest)) first.length 0
    (first :: rest).map (fun row => row.drop k)

/-- One parsed CSV line of the unnamed file's `processCSV`. -/
def parseLine (line : List Char) : List (List Char) :=
  (splitOnC ',' line).map cleanCell

/-- The parsed lines of the unnamed file's `processCSV`. -/
def parseLines (s : List Char) : List (List (List Char)) :=
  (splitOnC '\n' s).map Part000.parseLine

/-- The unnamed file's `processCSV` at the character-list level. -/
def processCSVL (s : List Char) : List (List Char) × List (List (List Char)) :=
  let lines := Part000.parseLines s
  let headers := lines.headD []
  let data := (lines.drop 1).filter (fun line => line.any (fun cell => !cell.isEmpty))
  let cleaned := Part000.removeLeadingBlankColumns (headers :: data)
  (cleaned.headD [], cleaned.drop 1)

/-- Translation of `processCSV` in the unnamed file
(`src/unnamed/part_000`, lines 19-49). -/
def processCSV (s : String) : List String × List (List String) :=
  let r := Part000.processCSVL s.toList
  (r.1.map (fun c => String.mk c), r.2.map (fun row => row.map (fun c => String.mk c)))

/-- The CSV serialization inside `processWithOpenAI`:
`[headers, ...data].map(row => row.join(',')).join('\n')` — the cells are
joined with a bare comma, without a space. -/
def serializeTable (headers : List String) (data : List (List String)) : String :=
  String.mk (joinWith ['\n']
    ((headers :: data).map (fun row => joinWith [','] (row.map String.toList))))

/-- The fixed text of the unnamed file's prompt template before the first
interpolation. -/
def promptIntro : String :=
  "I want to compare these two spreadsheets side-by-side. \nFirst collapse each spreadsheet into one column.\nDouble-check that each spreadsheet is one column only.\nNow start matching rows.\nIf a row exists in one spreadsheet but not the other, use an empty cell to keep alignment. \nDouble-check each row carefully. \nShow the result as a CSV. \nDo not provide any commentary.\n\nFirst spreadsheet:\n"

/-- The fixed text of the unnamed file's prompt template between the two
interpolations. -/
def promptBetween : String :=
  "\n\nSecond spreadsheet:\n"

/-- The component state of the unnamed file that `processWithOpenAI`
reads and writes. -/
structure AppState where
  file1Data : List (List String)
  file2Data : List (List String)
  headers1 : List String
  headers2 : List String
  isProcessing : Bool
  apiKey : String
  error : String
  processedResult : Option String
  processedHeaders : List String
  processedData : List (List String)
deriving DecidableEq

/-- Model of `processWithOpenAI` in the unnamed file, with the completion
reply as the `resp` argument and the issued request prompts returned
alongside the new state. -/
def processWithOpenAI (s : Part000.AppState) (resp : Except String String) :
    Part000.AppState × List String :=
  if s.apiKey = "" then
    ({ s with error := "Please enter your OpenAI API key first" }, [])
  else if s.file1Data.isEmpty || s.file2Data.isEmpty then
    ({ s with error := "Please upload both CSV files first" }, [])
  else
    let prompt := Part000.promptIntro ++ Part000.serializeTable s.headers1 s.file1Data
      ++ Part000.promptBetween ++ Part000.serializeTable s.headers2 s.file2Data
    match resp with
    | .error msg =>
      ({ s with isProcessing := false, error := msg, processedResult := none }, [prompt])
    | .ok result =>
      if result = "" then
        ({ s with isProcessing := false, error := "", processedResult := none }, [prompt])
      else
        let stripped := stripFence result
        let parsed := Part000.processCSV stripped
        ({ s with isProcessing := false, error := "", processedResult := some stripped,
                  processedHeaders := parsed.1, processedData := parsed.2 }, [prompt])

end Part000

/-- A cell test following the spec's words: column `j` of `row` holds a
non-empty cell (a cell beyond the row's end is not a non-empty cell). -/
def cellNonBlank (row : List (List Char)) (j : Nat) : Bool :=
  match row[j]? with
  | some c => !c.isEmpty
  | none => false

/-- Column `j` holds a non-empty cell in at least one row of the table. -/
def colHasNonBlank (data : List (List (List Char))) (j : Nat) : Bool :=
  data.any (fun row => cellNonBlank row j)

/-- The largest row length of a table. -/
def maxRowLen (data : List (List (List Char))) : Nat :=
  data.foldr (fun r m => max r.length m) 0

/-- The quantity named `k` by the spec: the first column index at which at
least one row of the table (the header row included) has a non-empty
cell; if no column has one, the number of columns of the widest row. -/
def specFirstNonBlankCol (data : List (List (List Char))) : Nat :=
  boundedFind (colHasNonBlank data) (maxRowLen data) 0

/-- The normalizer exactly as claim C1 words it: `k` is
`specFirstNonBlankCol` of the parsed table, with no cap, and columns
`[0, k)` are removed from the headers and from every kept row. -/
def specNormalize (s : String) : List String × List (List String) :=
  let k := specFirstNonBlankCol (tableOf s.toList)
  (((rawHeaders s.toList).drop k).map (fun c => String.mk c),
   ((rawRows s.toList).map (fun row => row.drop k)).map (fun row => row.map (fun c => String.mk c)))

/-- The normalizer with the spec's `k` capped at the number of header
cells — the amendment that the code's loop bound forces. -/
def specNormalizeCapped (s : String) : List String × List (List String) :=
  let k := min (rawHeaders s.toList).length (specFirstNonBlankCol (tableOf s.toList))
  (((rawHeaders s.toList).drop k).map (fun c => String.mk c),
   ((rawRows s.toList).map (fun row => row.drop k)).map (fun row => row.map (fun c => String.mk c)))

/-- A sample loaded state used to instantiate theorems with hypotheses. -/
def sampleState : AppState :=
  { file1Data := [["1"]], file2Data := [["2"]], headers1 := ["a"], headers2 := ["b"],
    processedHeaders := ["h"], processedData := [["d"]], isProcessing := false,
    apiKey := "key", error := "", processedResult := some "old" }

/-- A sample loaded state for the unnamed file's flow. -/
def samplePart000State : Part000.AppState :=
  { file1Data := [["1"]], file2Data := [["2"]], headers1 := ["a"], headers2 := ["b"],
    isProcessing := false, apiKey := "key", error := "", processedResult := some "old",
    processedHeaders := ["h"], processedData := [["d"]] }


/-! Characterization of the bounded linear search. -/

theorem boundedFind_ge_start (p : Nat → Bool) (fuel : Nat) :
    ∀ k, k ≤ boundedFind p fuel k := by
  induction fuel with
  | zero => intro k; simp [boundedFind]
  | succ fuel ih =>
    intro k
    simp only [boundedFind]
    by_cases h : p k
    · simp [h]
    · simp only [h, if_false]
      exact Nat.le_trans (Nat.le_succ k) (ih (k + 1))

theorem boundedFind_le (p : Nat → Bool) (fuel : Nat) :
    ∀ k, boundedFind p fuel k ≤ k + fuel := by
  induction fuel with
  | zero => intro k; simp [boundedFind]
  | succ fuel ih =>
    intro k
    simp only [boundedFind]
    by_cases h : p k
    · simp [h]
    · rw [if_neg h]
      have := ih (k + 1)
      omega

theorem boundedFind_below (p : Nat → Bool) (fuel : Nat) :
    ∀ k i, k ≤ i → i < boundedFind p fuel k → p i = false := by
  induction fuel with
  | zero =>
    intro k i hki hlt
    simp [boundedFind] at hlt
    omega
  | succ fuel ih =>
    intro k i hki hlt
    simp only [boundedFind] at hlt
    by_cases h : p k
    · simp [h] at hlt; omega
    · simp only [h, if_false] at hlt
      rcases Nat.eq_or_lt_of_le hki with heq | hgt
      · subst heq; exact Bool.eq_false_iff.mpr h
      · exact ih (k + 1) i hgt hlt

theorem boundedFind_true_of_lt (p : Nat → Bool) (fuel : Nat) :
    ∀ k, boundedFind p fuel k < k + fuel → p (boundedFind p fuel k) = true := by
  induction fuel with
  | zero => intro k h; simp [boundedFind] at h
  | succ fuel ih =>
    intro k h
    simp only [boundedFind] at h ⊢
    by_cases hp : p k
    · simp [hp]
    · rw [if_neg hp] at h ⊢
      exact ih (k + 1) (by omega)

theorem le_boundedFind (p : Nat → Bool) (fuel k m : Nat) (hm : m ≤ k + fuel)
    (hbelow : ∀ i, k ≤ i → i < m → p i = false) : m ≤ boundedFind p fuel k := by
  by_contra hcon
  push_neg at hcon
  have h1 : k ≤ boundedFind p fuel k := boundedFind_ge_start p fuel k
  have h2 : boundedFind p fuel k < k + fuel := Nat.lt_of_lt_of_le hcon hm
  have h3 := boundedFind_true_of_lt p fuel k h2
  have h4 := hbelow _ h1 hcon
  simp [h4] at h3

theorem boundedFind_eq (p : Nat → Bool) (fuel k j : Nat) (hkj : k ≤ j)
    (hjf : j ≤ k + fuel) (hbelow : ∀ i, k ≤ i → i < j → p i = false)
    (hat : j < k + fuel → p j = true) : boundedFind p fuel k = j := by
  have h1 : j ≤ boundedFind p fuel k := le_boundedFind p fuel k j hjf hbelow
  have h2 : boundedFind p fuel k ≤ j := by
    by_contra hcon
    push_neg at hcon
    have hb := boundedFind_below p fuel k j hkj hcon
    have hlt : j < k + fuel := Nat.lt_of_lt_of_le hcon (boundedFind_le p fuel k)
    have := hat hlt
    simp [hb] at this
  omega

/-! Basic list facts used throughout. -/

theorem any_congr_mem {α : Type} {l : List α} {p q : α → Bool}
    (h : ∀ a ∈ l, p a = q a) : l.any p = l.any q := by
  induction l with
  | nil => rfl
  | cons x xs ih =>
    simp only [List.any_cons]
    rw [h x (List.mem_cons_self x xs), ih fun a ha => h a (List.mem_cons_of_mem x ha)]

theorem length_le_maxRowLen {data : List (List (List Char))} :
    ∀ r ∈ data, r.length ≤ maxRowLen data := by
  induction data with
  | nil => simp
  | cons x xs ih =>
    intro r hr
    rcases List.mem_cons.mp hr with heq | hmem
    · subst heq; exact Nat.le_max_left _ _
    · exact Nat.le_trans (ih r hmem) (Nat.le_max_right _ _)

/-! Facts about the split and join models. -/

theorem splitAux_not_mem (c : Char) : ∀ s : List Char,
    c ∉ (splitAux c s).1 ∧ ∀ l ∈ (splitAux c s).2, c ∉ l := by
  intro s
  induction s with
  | nil => simp [splitAux]
  | cons x xs ih =>
    by_cases h : x = c
    · simp only [splitAux, if_pos h]
      refine ⟨by simp, ?_⟩
      intro l hl
      rcases List.mem_cons.mp hl with rfl | hl'
      · exact ih.1
      · exact ih.2 l hl'
    · simp only [splitAux, if_neg h]
      refine ⟨?_, ih.2⟩
      intro hc
      rcases List.mem_cons.mp hc with rfl | hc'
      · exact h rfl
      · exact ih.1 hc'

theorem splitAux_subset (c : Char) : ∀ s : List Char,
    (∀ a ∈ (splitAux c s).1, a ∈ s) ∧ ∀ l ∈ (splitAux c s).2, ∀ a ∈ l, a ∈ s := by
  intro s
  induction s with
  | nil => simp [splitAux]
  | cons x xs ih =>
    by_cases h : x = c
    · simp only [splitAux, if_pos h]
      refine ⟨by simp, ?_⟩
      intro l hl a ha
      rcases List.mem_cons.mp hl with rfl | hl'
      · exact List.mem_cons_of_mem x (ih.1 a ha)
      · exact List.mem_cons_of_mem x (ih.2 l hl' a ha)
    · simp only [splitAux, if_neg h]
      refine ⟨?_, ?_⟩
      · intro a ha
        rcases List.mem_cons.mp ha with rfl | ha'
        · exact List.mem_cons_self _ _
        · exact List.mem_cons_of_mem x (ih.1 a ha')
      · intro l hl a ha
        exact List.mem_cons_of_mem x (ih.2 l hl a ha)

theorem splitAux_no_sep (c : Char) : ∀ s : List Char, c ∉ s → splitAux c s = (s, []) := by
  intro s
  induction s with
  | nil => intro _; rfl
  | cons x xs ih =>
    intro h
    have hx : x ≠ c := fun heq => h (heq ▸ List.mem_cons_self x xs)
    have hxs : c ∉ xs := fun hmem => h (List.mem_cons_of_mem x hmem)
    simp only [splitAux, if_neg hx, ih hxs]

theorem splitAux_append_sep (c : Char) (b : List Char) : ∀ a : List Char, c ∉ a →
    splitAux c (a ++ c :: b) = (a, (splitAux c b).1 :: (splitAux c b).2) := by
  intro a
  induction a with
  | nil => intro _; simp [splitAux]
  | cons x a' ih =>
    intro h
    have hx : x ≠ c := fun heq => h (heq ▸ List.mem_cons_self x a')
    have ha' : c ∉ a' := fun hmem => h (List.mem_cons_of_mem x hmem)
    simp only [List.cons_append, splitAux, if_neg hx]
    rw [show a'.append (c :: b) = a' ++ c :: b from rfl, ih ha']

theorem splitOnC_joinWith (c : Char) : ∀ ls : List (List Char), ls ≠ [] →
    (∀ l ∈ ls, c ∉ l) → splitOnC c (joinWith [c] ls) = ls := by
  intro ls
  induction ls with
  | nil => intro h; exact absurd rfl h
  | cons l tail ih =>
    intro _ hmem
    cases tail with
    | nil =>
      have hl : c ∉ l := hmem l (by simp)
      simp [joinWith, splitOnC, splitAux_no_sep c l hl]
    | cons l2 rest =>
      have hl : c ∉ l := hmem l (by simp)
      have hjoin : joinWith [c] (l :: l2 :: rest) = l ++ c :: joinWith [c] (l2 :: rest) := by
        simp [joinWith]
      have hih := ih (by simp) (fun x hx => hmem x (List.mem_cons_of_mem l hx))
      rw [hjoin, splitOnC, splitAux_append_sep c _ l hl]
      rw [splitOnC] at hih
      simpa using hih

theorem splitOnC_joinWith_commaSpace : ∀ (cells : List (List Char)) (c₀ : List Char),
    ',' ∉ c₀ → (∀ l ∈ cells, ',' ∉ l) →
    splitOnC ',' (joinWith [',', ' '] (c₀ :: cells))
      = c₀ :: cells.map (fun l => ' ' :: l) := by
  intro cells
  induction cells with
  | nil =>
    intro c₀ h _
    simp [joinWith, splitOnC, splitAux_no_sep ',' c₀ h]
  | cons c₁ rest ih =>
    intro c₀ h0 hmem
    have hjoin : joinWith [',', ' '] (c₀ :: c₁ :: rest)
        = c₀ ++ ',' :: ' ' :: joinWith [',', ' '] (c₁ :: rest) := by
      simp [joinWith]
    have hih := ih c₁ (hmem c₁ (by simp)) (fun l hl => hmem l (by simp [hl]))
    rw [splitOnC] at hih
    rw [hjoin, splitOnC, splitAux_append_sep ',' _ c₀ h0]
    have hsp : (' ' : Char) ≠ ',' := by decide
    simp only [splitAux, if_neg hsp]
    injection hih with h1 h2
    simp [h1, h2]

theorem mem_joinWith (sep : List Char) : ∀ (ls : List (List Char)) (a : Char),
    a ∈ joinWith sep ls → a ∈ sep ∨ ∃ l ∈ ls, a ∈ l := by
  intro ls
  induction ls with
  | nil => intro a h; simp [joinWith] at h
  | cons l tail ih =>
    cases tail with
    | nil =>
      intro a h
      rw [joinWith] at h
      right
      exact ⟨l, by simp, h⟩
    | cons l2 rest =>
      intro a h
      rw [joinWith] at h
      simp only [List.append_assoc, List.mem_append] at h
      rcases h with h | h | h
      · right; exact ⟨l, by simp, h⟩
      · left; exact h
      · rcases ih a h with h' | ⟨l', hl', ha⟩
        · left; exact h'
        · right; exact ⟨l', by simp [hl'], ha⟩

/-! Facts about the cell-cleaning model. -/

theorem dropWhile_append_all {p : Char → Bool} : ∀ (a b : List Char),
    (∀ c ∈ a, p c = true) → (a ++ b).dropWhile p = b.dropWhile p := by
  intro a
  induction a with
  | nil => intro b _; simp
  | cons x a' ih =>
    intro b h
    simp only [List.cons_append, List.dropWhile_cons, h x (List.mem_cons_self x a'), if_pos]
    exact ih b fun c hc => h c (List.mem_cons_of_mem x hc)

theorem cleanCell_space_cons (l : List Char) : cleanCell (' ' :: l) = cleanCell l := by
  have h : isWS ' ' = true := rfl
  simp [cleanCell, trimWS, List.dropWhile_cons, h]

theorem mem_of_mem_stripLeadQuote {a : Char} : ∀ {l : List Char},
    a ∈ stripLeadQuote l → a ∈ l := by
  intro l h
  cases l with
  | nil => simp [stripLeadQuote] at h
  | cons x xs =>
    by_cases hx : x = '"'
    · rw [stripLeadQuote, if_pos hx] at h
      exact List.mem_cons_of_mem x h
    · rwa [stripLeadQuote, if_neg hx] at h

theorem mem_of_mem_stripQuotes {a : Char} {l : List Char}
    (h : a ∈ stripQuotes l) : a ∈ l := by
  rw [stripQuotes, List.mem_reverse] at h
  have h1 := mem_of_mem_stripLeadQuote h
  rw [List.mem_reverse] at h1
  exact mem_of_mem_stripLeadQuote h1

theorem mem_of_mem_trimWS {a : Char} {l : List Char}
    (h : a ∈ trimWS l) : a ∈ l := by
  rw [trimWS, List.mem_reverse] at h
  have h1 := (List.dropWhile_sublist (l := (l.dropWhile isWS).reverse) isWS).subset h
  rw [List.mem_reverse] at h1
  exact (List.dropWhile_sublist isWS).subset h1

theorem mem_of_mem_cleanCell {a : Char} {l : List Char}
    (h : a ∈ cleanCell l) : a ∈ l :=
  mem_of_mem_trimWS (mem_of_mem_stripQuotes h)

/-! Structural facts about the parsed table. -/

theorem splitOnC_not_mem (c : Char) (s : List Char) :
    ∀ l ∈ splitOnC c s, c ∉ l := by
  intro l hl
  rcases List.mem_cons.mp hl with rfl | h2
  · exact (splitAux_not_mem c s).1
  · exact (splitAux_not_mem c s).2 l h2

theorem parseLine_ne_nil (l : List Char) : parseLine l ≠ [] := by
  simp [parseLine, splitOnC]

theorem parseLine_mem {cell : List Char} {l : List Char} (h : cell ∈ parseLine l) :
    ',' ∉ cell ∧ ∀ a ∈ cell, a ∈ l := by
  rw [parseLine] at h
  rcases List.mem_map.mp h with ⟨chunk, hchunk, rfl⟩
  constructor
  · intro hc
    exact splitOnC_not_mem ',' l chunk hchunk (mem_of_mem_cleanCell hc)
  · intro a ha
    rcases List.mem_cons.mp hchunk with rfl | h2
    · exact (splitAux_subset ',' l).1 a (mem_of_mem_cleanCell ha)
    · exact (splitAux_subset ',' l).2 chunk h2 a (mem_of_mem_cleanCell ha)

theorem rawHeaders_eq (s : List Char) :
    rawHeaders s = parseLine (splitAux '\n' s).1 := by
  simp [rawHeaders, parseLines, splitOnC]

theorem rawHeaders_ne_nil (s : List Char) : rawHeaders s ≠ [] := by
  rw [rawHeaders_eq]
  exact parseLine_ne_nil _

theorem rawHeaders_cells {s : List Char} {cell : List Char}
    (h : cell ∈ rawHeaders s) : ',' ∉ cell ∧ '\n' ∉ cell := by
  rw [rawHeaders_eq] at h
  obtain ⟨hnc, hsub⟩ := parseLine_mem h
  refine ⟨hnc, fun hn => ?_⟩
  exact (splitAux_not_mem '\n' s).1 (hsub '\n' hn)

theorem mem_parseLines {s : List Char} {r : List (List Char)} (h : r ∈ parseLines s) :
    ∃ line ∈ splitOnC '\n' s, r = parseLine line := by
  rw [parseLines] at h
  rcases List.mem_map.mp h with ⟨line, h1, h2⟩
  exact ⟨line, h1, h2.symm⟩

theorem rawRows_mem {s : List Char} {r : List (List Char)} (h : r ∈ rawRows s) :
    r ≠ [] ∧ (∀ cell ∈ r, ',' ∉ cell ∧ '\n' ∉ cell)
      ∧ r.any (fun c => !c.isEmpty) = true := by
  rw [rawRows] at h
  have hpred := List.of_mem_filter h
  have hdrop : r ∈ parseLines s := List.drop_subset 1 _ (List.mem_of_mem_filter h)
  obtain ⟨line, hline, rfl⟩ := mem_parseLines hdrop
  refine ⟨parseLine_ne_nil line, ?_, hpred⟩
  intro cell hc
  obtain ⟨hnc, hsub⟩ := parseLine_mem hc
  refine ⟨hnc, fun hn => ?_⟩
  exact splitOnC_not_mem '\n' s line hline (hsub '\n' hn)

theorem processCSVL_eq (s : List Char) :
    processCSVL s = ((rawHeaders s).drop (leadingBlankCols s),
      (rawRows s).map (fun r => r.drop (leadingBlankCols s))) := by
  simp [processCSVL, tableOf, removeLeadingBlankColumns, leadingBlankCols]

/-! The loop of `removeLeadingBlankColumns` computes the first column
index at which some row has a non-empty cell, capped at the header
length: within the loop's reach every surviving data row is long enough
that the JavaScript `undefined` case never fires. -/

theorem colCheck_agree (H : List (List Char)) (R : List (List (List Char)))
    (hR : ∀ r ∈ R, r.any (fun c => !c.isEmpty) = true) (j : Nat) (hj : j < H.length)
    (hbelow : ∀ i, i < j → colHasNonBlank (H :: R) i = false) :
    colCheckJS (H :: R) j = colHasNonBlank (H :: R) j := by
  have hlen : ∀ row ∈ H :: R, j < row.length := by
    intro row hrow
    rcases List.mem_cons.mp hrow with rfl | hmem
    · exact hj
    · by_contra hcon
      push_neg at hcon
      obtain ⟨c, hc, hcne⟩ := List.any_eq_true.mp (hR row hmem)
      obtain ⟨i, hi, hget⟩ := List.mem_iff_getElem.mp hc
      have hij : i < j := Nat.lt_of_lt_of_le hi hcon
      have hfalse := hbelow i hij
      have htrue : colHasNonBlank (H :: R) i = true :=
        List.any_eq_true.mpr ⟨row, List.mem_cons_of_mem H hmem,
          by simp [cellNonBlank, List.getElem?_eq_getElem hi, hget, hcne]⟩
      simp [hfalse] at htrue
  apply any_congr_mem
  intro row hrow
  have hlt := hlen row hrow
  simp [cellNonBlankJS, cellNonBlank, List.getElem?_eq_getElem hlt]

theorem leadingBlankCols_eq_min (s : List Char) :
    leadingBlankCols s = min (rawHeaders s).length (specFirstNonBlankCol (tableOf s)) := by
  have hR : ∀ r ∈ rawRows s, r.any (fun c => !c.isEmpty) = true :=
    fun r hr => (rawRows_mem hr).2.2
  have hHM : (rawHeaders s).length ≤ maxRowLen (rawHeaders s :: rawRows s) :=
    length_le_maxRowLen (rawHeaders s) (by simp)
  simp only [leadingBlankCols, specFirstNonBlankCol, tableOf]
  by_cases hex : ∃ j, j < (rawHeaders s).length
      ∧ colHasNonBlank (rawHeaders s :: rawRows s) j = true
  · obtain ⟨jw, hjw, hcw⟩ := hex
    have hE : ∃ j, colHasNonBlank (rawHeaders s :: rawRows s) j = true := ⟨jw, hcw⟩
    have hj₀p := Nat.find_spec hE
    have hj₀min : ∀ i, i < Nat.find hE →
        colHasNonBlank (rawHeaders s :: rawRows s) i = false :=
      fun i hi => Bool.eq_false_iff.mpr (Nat.find_min hE hi)
    have hj₀H : Nat.find hE < (rawHeaders s).length :=
      Nat.lt_of_le_of_lt (Nat.find_min' hE hcw) hjw
    have hspec : boundedFind (colHasNonBlank (rawHeaders s :: rawRows s))
        (maxRowLen (rawHeaders s :: rawRows s)) 0 = Nat.find hE := by
      apply boundedFind_eq
      · omega
      · omega
      · intro i _ hi; exact hj₀min i hi
      · intro _; exact hj₀p
    have hjs : boundedFind (colCheckJS (rawHeaders s :: rawRows s))
        (rawHeaders s).length 0 = Nat.find hE := by
      apply boundedFind_eq
      · omega
      · omega
      · intro i _ hi
        rw [colCheck_agree (rawHeaders s) (rawRows s) hR i (Nat.lt_trans hi hj₀H)
          fun i' hi' => hj₀min i' (Nat.lt_trans hi' hi)]
        exact hj₀min i hi
      · intro _
        rw [colCheck_agree (rawHeaders s) (rawRows s) hR (Nat.find hE) hj₀H hj₀min]
        exact hj₀p
    rw [hjs, hspec]
    omega
  · push_neg at hex
    have hfalse : ∀ j, j < (rawHeaders s).length →
        colHasNonBlank (rawHeaders s :: rawRows s) j = false :=
      fun j hj => Bool.eq_false_iff.mpr (hex j hj)
    have hjs : boundedFind (colCheckJS (rawHeaders s :: rawRows s))
        (rawHeaders s).length 0 = (rawHeaders s).length := by
      apply boundedFind_eq
      · omega
      · omega
      · intro i _ hi
        rw [colCheck_agree (rawHeaders s) (rawRows s) hR i hi
          fun i' hi' => hfalse i' (Nat.lt_trans hi' hi)]
        exact hfalse i hi
      · intro hcon; omega
    have hspec : (rawHeaders s).length ≤ boundedFind
        (colHasNonBlank (rawHeaders s :: rawRows s))
        (maxRowLen (rawHeaders s :: rawRows s)) 0 := by
      apply le_boundedFind
      · omega
      · intro i _ hi; exact hfalse i hi
    rw [hjs]
    omega

theorem parseLines_ne_nil (s : List Char) : parseLines s ≠ [] := by
  simp [parseLines, splitOnC]

theorem rawHeaders_mem_parseLines (s : List Char) : rawHeaders s ∈ parseLines s := by
  rw [rawHeaders]
  cases hl : parseLines s with
  | nil => exact absurd hl (parseLines_ne_nil s)
  | cons a t => simp

/-- Claim C1, counterexample.  On the input `"\n,,x"` the header line has a
single blank cell while the data row `["", "", "x"]` first becomes
non-blank at column 2, so the first column index at which at least one
row has a non-empty cell is 2; but the code's loop is bounded by the
header length and stops at `k = 1`, leaving the row `["", "x"]` instead
of `["x"]`. -/
theorem claim_C1_counterexample :
    specFirstNonBlankCol (tableOf ("\n,,x".toList)) = 2 ∧
    processCSV "\n,,x" = ([], [["", "x"]]) ∧
    specNormalize "\n,,x" = ([], [["x"]]) ∧
    processCSV "\n,,x" ≠ specNormalize "\n,,x" :=
  ⟨by decide, by decide, by decide, by decide⟩

/-- Claim C1, amended: `normalize` computes `k` as the first column index
at which at least one row (the header row included) has a non-empty cell,
capped at the number of header cells; it removes columns `[0, k)` from
the headers and from every kept row and leaves interior and trailing
blank columns untouched, and
`normalize(",,a,b\n,,1,2")` yields headers `["a","b"]` and rows
`[["1","2"]]`. -/
theorem claim_C1_amended :
    (∀ s : String, processCSV s = specNormalizeCapped s) ∧
    processCSV ",,a,b\n,,1,2" = (["a", "b"], [["1", "2"]]) := by
  refine ⟨fun s => ?_, by decide⟩
  simp only [processCSV, specNormalizeCapped, processCSVL_eq, leadingBlankCols_eq_min]

theorem processCSVL_all_blank (t : List Char)
    (h : ∀ line ∈ parseLines t, ∀ cell ∈ line, cell = []) :
    leadingBlankCols t = (rawHeaders t).length ∧ processCSVL t = ([], []) := by
  have hH : ∀ cell ∈ rawHeaders t, cell = [] :=
    fun cell hc => h _ (rawHeaders_mem_parseLines t) cell hc
  have hRows : rawRows t = [] := by
    rw [rawRows]
    apply List.filter_eq_nil_iff.mpr
    intro line hline
    have hsub : line ∈ parseLines t := List.drop_subset 1 _ hline
    simp only [List.any_eq_true, not_exists]
    rintro c ⟨hc, hcne⟩
    rw [h line hsub c hc] at hcne
    simp at hcne
  have hk : leadingBlankCols t = (rawHeaders t).length := by
    rw [leadingBlankCols, tableOf, hRows]
    apply boundedFind_eq
    · omega
    · omega
    · intro i _ hi
      have hcell : (rawHeaders t)[i] = [] := hH _ (List.getElem_mem hi)
      have hsome : (rawHeaders t)[i]? = some [] := by
        rw [List.getElem?_eq_getElem hi, hcell]
      simp [colCheckJS, cellNonBlankJS, hsome]
    · intro hcon; omega
  refine ⟨hk, ?_⟩
  rw [processCSVL_eq, hk, hRows]
  simp

/-- Claim C5: on an input whose every cell is blank, the loop runs to the
header length, the returned headers are empty, and every returned row is
empty (in fact all data rows are dropped by the blank-row filter). -/
theorem claim_C5 (s : String)
    (h : ∀ line ∈ parseLines s.toList, ∀ cell ∈ line, cell = []) :
    leadingBlankCols s.toList = (rawHeaders s.toList).length ∧
    (processCSV s).1 = [] ∧ ∀ row ∈ (processCSV s).2, row = [] := by
  obtain ⟨hk, hp⟩ := processCSVL_all_blank s.toList h
  have hcsv : processCSV s = ([], []) := by
    have hp' : processCSVL s.data = ([], []) := hp
    simp [processCSV, hp, hp']
  refine ⟨hk, by rw [hcsv], ?_⟩
  intro row hrow
  rw [hcsv] at hrow
  simp at hrow

/-- Witness for claim C5 at the all-blank input `",\n,"`. -/
theorem claim_C5_witness :
    leadingBlankCols (",\n,".toList) = (rawHeaders (",\n,".toList)).length ∧
    (processCSV ",\n,").1 = [] ∧ ∀ row ∈ (processCSV ",\n,").2, row = [] :=
  claim_C5 ",\n," (by decide)

theorem processCSVL_rows_nonblank (t : List Char) (r : List (List Char))
    (hr : r ∈ (processCSVL t).2) : ∃ c ∈ r, c ≠ [] := by
  rw [processCSVL_eq] at hr
  rcases List.mem_map.mp hr with ⟨r0, hr0, rfl⟩
  obtain ⟨-, -, hany⟩ := rawRows_mem hr0
  obtain ⟨c, hc, hcne⟩ := List.any_eq_true.mp hany
  obtain ⟨i, hi, hget⟩ := List.mem_iff_getElem.mp hc
  have hik : leadingBlankCols t ≤ i := by
    by_contra hcon
    push_neg at hcon
    rw [leadingBlankCols] at hcon
    have hfalse := boundedFind_below _ _ 0 i (Nat.zero_le i) hcon
    have hsome : r0[i]? = some c := by rw [List.getElem?_eq_getElem hi, hget]
    have hcell : cellNonBlankJS r0 i = true := by
      simp [cellNonBlankJS, hsome, hcne]
    have htrue : colCheckJS (tableOf t) i = true :=
      List.any_eq_true.mpr ⟨r0, List.mem_cons_of_mem _ hr0, hcell⟩
    rw [hfalse] at htrue
    exact Bool.false_ne_true htrue
  have hdropped : c ∈ r0.drop (leadingBlankCols t) := by
    have hgetd : (r0.drop (leadingBlankCols t))[i - leadingBlankCols t]? = some c := by
      rw [List.getElem?_drop]
      have heq : leadingBlankCols t + (i - leadingBlankCols t) = i := by omega
      rw [heq, List.getElem?_eq_getElem hi, hget]
    exact List.getElem?_mem hgetd
  refine ⟨c, hdropped, fun hnil => ?_⟩
  rw [hnil] at hcne
  simp at hcne

/-- Claim C9: every row returned by `processCSV` has at least one
non-empty cell.  The blank-row filter keeps only rows with a non-empty
cell, and the loop stops no later than the first column at which any kept
row is non-blank, so the slice never discards all non-empty cells of a
kept row. -/
theorem claim_C9 (s : String) (row : List String)
    (hrow : row ∈ (processCSV s).2) : ∃ cell ∈ row, cell ≠ "" := by
  simp only [processCSV] at hrow
  rcases List.mem_map.mp hrow with ⟨r, hr, rfl⟩
  obtain ⟨c, hcr, hcne⟩ := processCSVL_rows_nonblank s.toList r hr
  refine ⟨String.mk c, List.mem_map.mpr ⟨c, hcr, rfl⟩, fun hempty => ?_⟩
  exact hcne (by simpa using congrArg String.toList hempty)

/-- Witness for claim C9 on the input `"a\nb"`, whose single returned row
is `["b"]`. -/
theorem claim_C9_witness : ∃ cell ∈ (["b"] : List String), cell ≠ "" :=
  claim_C9 "a\nb" ["b"] (by decide)

/-! Serialization round trip: re-parsing the Prompt Builder's output. -/

theorem parseLine_joinWith (cells : List (List Char)) (hne : cells ≠ [])
    (hnc : ∀ l ∈ cells, ',' ∉ l) (hfix : ∀ l ∈ cells, cleanCell l = l) :
    parseLine (joinWith [',', ' '] cells) = cells := by
  cases cells with
  | nil => exact absurd rfl hne
  | cons c₀ rest =>
    rw [parseLine, splitOnC_joinWith_commaSpace rest c₀ (hnc c₀ (by simp))
      fun l hl => hnc l (by simp [hl])]
    simp only [List.map_cons, List.map_map]
    rw [hfix c₀ (by simp)]
    congr 1
    have hpt : ∀ l ∈ rest, (cleanCell ∘ fun x => ' ' :: x) l = id l := by
      intro l hl
      simp only [Function.comp_apply, id_eq]
      rw [cleanCell_space_cons, hfix l (by simp [hl])]
    rw [List.map_congr_left hpt, List.map_id]

theorem joinWith_commaSpace_no_newline (cells : List (List Char))
    (h : ∀ l ∈ cells, '\n' ∉ l) : '\n' ∉ joinWith [',', ' '] cells := by
  intro hmem
  rcases mem_joinWith _ cells '\n' hmem with hsep | ⟨l, hl, ha⟩
  · simp at hsep
  · exact h l hl ha

theorem parseLines_roundTrip (H : List (List Char)) (R : List (List (List Char)))
    (hH : H ≠ [])
    (hHnc : ∀ cell ∈ H, ',' ∉ cell) (hHnn : ∀ cell ∈ H, '\n' ∉ cell)
    (hHfix : ∀ cell ∈ H, cleanCell cell = cell)
    (hRne : ∀ r ∈ R, r ≠ []) (hRnc : ∀ r ∈ R, ∀ cell ∈ r, ',' ∉ cell)
    (hRnn : ∀ r ∈ R, ∀ cell ∈ r, '\n' ∉ cell)
    (hRfix : ∀ r ∈ R, ∀ cell ∈ r, cleanCell cell = cell) :
    parseLines (joinWith ['\n']
      (joinWith [',', ' '] H :: R.map (joinWith [',', ' ']))) = H :: R := by
  rw [parseLines]
  rw [splitOnC_joinWith '\n' _ (by simp) ?hnn]
  case hnn =>
    intro l hl
    rcases List.mem_cons.mp hl with rfl | hl'
    · exact joinWith_commaSpace_no_newline H hHnn
    · rcases List.mem_map.mp hl' with ⟨r, hr, rfl⟩
      exact joinWith_commaSpace_no_newline r (hRnn r hr)
  rw [List.map_cons, parseLine_joinWith H hH hHnc hHfix]
  congr 1
  rw [List.map_map]
  have hpt : ∀ r ∈ R, (parseLine ∘ joinWith [',', ' ']) r = id r := by
    intro r hr
    simp only [Function.comp_apply, id_eq]
    exact parseLine_joinWith r (hRne r hr) (hRnc r hr) (hRfix r hr)
  rw [List.map_congr_left hpt, List.map_id]

theorem processCSVL_k0 (t : List Char) (hk : leadingBlankCols t = 0) :
    processCSVL t = (rawHeaders t, rawRows t) := by
  rw [processCSVL_eq, hk]
  simp

theorem processCSVL_serialize_roundTrip (t : List Char)
    (hk : leadingBlankCols t = 0)
    (hHfix : ∀ cell ∈ rawHeaders t, cleanCell cell = cell)
    (hRfix : ∀ r ∈ rawRows t, ∀ cell ∈ r, cleanCell cell = cell) :
    processCSVL (joinWith ['\n']
      (joinWith [',', ' '] (rawHeaders t) :: (rawRows t).map (joinWith [',', ' '])))
      = (rawHeaders t, rawRows t) := by
  have hparse := parseLines_roundTrip (rawHeaders t) (rawRows t)
    (rawHeaders_ne_nil t)
    (fun cell hc => (rawHeaders_cells hc).1)
    (fun cell hc => (rawHeaders_cells hc).2)
    hHfix
    (fun r hr => (rawRows_mem hr).1)
    (fun r hr cell hc => ((rawRows_mem hr).2.1 cell hc).1)
    (fun r hr cell hc => ((rawRows_mem hr).2.1 cell hc).2)
    hRfix
  have hHu : rawHeaders (joinWith ['\n']
      (joinWith [',', ' '] (rawHeaders t) :: (rawRows t).map (joinWith [',', ' '])))
      = rawHeaders t := by
    rw [rawHeaders, hparse]
    simp
  have hRu : rawRows (joinWith ['\n']
      (joinWith [',', ' '] (rawHeaders t) :: (rawRows t).map (joinWith [',', ' '])))
      = rawRows t := by
    rw [rawRows, hparse]
    simp only [List.drop_succ_cons, List.drop_zero]
    apply List.filter_eq_self.mpr
    intro r hr
    exact (rawRows_mem hr).2.2
  have hku : leadingBlankCols (joinWith ['\n']
      (joinWith [',', ' '] (rawHeaders t) :: (rawRows t).map (joinWith [',', ' '])))
      = 0 := by
    rw [leadingBlankCols, tableOf, hHu, hRu]
    rw [leadingBlankCols, tableOf] at hk
    exact hk
  rw [processCSVL_k0 _ hku, hHu, hRu]

theorem toList_map_mk (l : List (List Char)) :
    (l.map (fun c => String.mk c)).map String.toList = l := by
  induction l with
  | nil => rfl
  | cons x xs ih => simp [ih, String.toList]

theorem formatData_toList (H : List (List Char)) (R : List (List (List Char))) :
    (formatData (H.map (fun c => String.mk c))
        (R.map (fun row => row.map (fun c => String.mk c)))).toList
      = joinWith ['\n'] (joinWith [',', ' '] H :: R.map (joinWith [',', ' '])) := by
  rw [formatData]
  rw [show ∀ l : List Char, (String.mk l).toList = l from fun l => rfl]
  congr 1
  congr 1
  · exact congrArg (joinWith [',', ' ']) (toList_map_mk H)
  · rw [List.map_map]
    exact List.map_congr_left fun row _ =>
      congrArg (joinWith [',', ' ']) (toList_map_mk row)

/-- Claim C2, counterexample.  The input `""a""` has no blank leading
columns, yet re-serializing and re-parsing is not the identity: the first
parse strips the outer quote pair leaving the cell `"a"`, and the second
parse strips the remaining quote pair leaving `a`. -/
theorem claim_C2_counterexample :
    leadingBlankCols ("\"\"a\"\"".toList) = 0 ∧
    processCSV "\"\"a\"\"" = (["\"a\""], []) ∧
    processCSV (formatData (processCSV "\"\"a\"\"").1 (processCSV "\"\"a\"\"").2)
      = (["a"], []) ∧
    processCSV (formatData (processCSV "\"\"a\"\"").1 (processCSV "\"\"a\"\"").2)
      ≠ processCSV "\"\"a\"\"" :=
  ⟨by decide, by decide, by decide, by decide⟩

/-- Claim C2, amended: for CSV text with no blank leading columns whose
normalized cells are all fixed points of the cell cleaning (no leading or
trailing whitespace, not starting or ending with a double quote),
`normalize` is idempotent under the Prompt Builder's serialization. -/
theorem claim_C2_amended (x : String)
    (hk : leadingBlankCols x.toList = 0)
    (hfixH : ∀ cell ∈ (processCSV x).1, cleanCell cell.toList = cell.toList)
    (hfixR : ∀ row ∈ (processCSV x).2, ∀ cell ∈ row, cleanCell cell.toList = cell.toList) :
    processCSV (formatData (processCSV x).1 (processCSV x).2) = processCSV x := by
  have hp : processCSVL x.toList = (rawHeaders x.toList, rawRows x.toList) :=
    processCSVL_k0 _ hk
  have h1 : (processCSV x).1 = (rawHeaders x.toList).map (fun c => String.mk c) := by
    simp only [processCSV]
    rw [hp]
  have h2 : (processCSV x).2
      = (rawRows x.toList).map (fun row => row.map (fun c => String.mk c)) := by
    simp only [processCSV]
    rw [hp]
  have hHfix : ∀ cell ∈ rawHeaders x.toList, cleanCell cell = cell := by
    intro cell hc
    have hmem : String.mk cell ∈ (processCSV x).1 := by
      rw [h1]
      exact List.mem_map.mpr ⟨cell, hc, rfl⟩
    exact hfixH _ hmem
  have hRfix : ∀ r ∈ rawRows x.toList, ∀ cell ∈ r, cleanCell cell = cell := by
    intro r hr cell hc
    have hmem : r.map (fun c => String.mk c) ∈ (processCSV x).2 := by
      rw [h2]
      exact List.mem_map.mpr ⟨r, hr, rfl⟩
    exact hfixR _ hmem (String.mk cell) (List.mem_map.mpr ⟨cell, hc, rfl⟩)
  have hser : (formatData (processCSV x).1 (processCSV x).2).toList
      = joinWith ['\n'] (joinWith [',', ' '] (rawHeaders x.toList)
          :: (rawRows x.toList).map (joinWith [',', ' '])) := by
    rw [h1, h2, formatData_toList]
  have hfinal : processCSVL (formatData (processCSV x).1 (processCSV x).2).toList
      = (rawHeaders x.toList, rawRows x.toList) := by
    rw [hser]
    exact processCSVL_serialize_roundTrip x.toList hk hHfix hRfix
  have houter : processCSV (formatData (processCSV x).1 (processCSV x).2)
      = ((processCSVL (formatData (processCSV x).1 (processCSV x).2).toList).1.map
          (fun c => String.mk c),
         (processCSVL (formatData (processCSV x).1 (processCSV x).2).toList).2.map
          (fun row => row.map (fun c => String.mk c))) := rfl
  rw [houter, hfinal]
  rw [← h1, ← h2]

/-- Witness for the amended claim C2 at the input `"a,b\n1,2"`, which has
no blank leading columns and only clean cells. -/
theorem claim_C2_witness :
    processCSV (formatData (processCSV "a,b\n1,2").1 (processCSV "a,b\n1,2").2)
      = processCSV "a,b\n1,2" :=
  claim_C2_amended "a,b\n1,2" (by decide) (by decide) (by decide)

/-- Claim C3, counterexample.  The regex alternative `\s*```$` consumes
the whitespace run before the closing fence, so the newline before the
final fence is removed as well and the result carries no trailing
newline. -/
theorem claim_C3_counterexample :
    stripFence "```csv\na,b\n1,2\n```" = "a,b\n1,2" ∧
    stripFence "```csv\na,b\n1,2\n```" ≠ "a,b\n1,2\n" :=
  ⟨by decide, by decide⟩

/-- Claim C3, amended: on the input with an opening csv-tagged fence, two
CSV lines and a closing fence, `stripFence` returns `"a,b\n1,2"` — the
newline before the closing fence is stripped with the fence, so there is
no trailing newline. -/
theorem claim_C3_amended : stripFence "```csv\na,b\n1,2\n```" = "a,b\n1,2" := by
  decide

/-- Claim C4, counterexample.  A bare untagged opening fence is not
removed: the first regex alternative requires the `csv` tag and the
second only matches at the end of the string, so on
`"```\na,b\n```"` only the closing fence is stripped. -/
theorem claim_C4_counterexample :
    stripFence "```\na,b\n```" = "```\na,b" ∧
    stripFence "```\na,b\n```" ≠ "a,b" :=
  ⟨by decide, by decide⟩

theorem stripFront (w body : List Char) (hw : ∀ c ∈ w, isWS c = true)
    (hb : ∀ c, body.head? = some c → isWS c = false) :
    (w ++ body).dropWhile isWS = body := by
  rw [dropWhile_append_all w body hw]
  cases body with
  | nil => rfl
  | cons b bt =>
    rw [List.dropWhile_cons, hb b rfl]
    simp

theorem stripBack (w body : List Char) (hw : ∀ c ∈ w, isWS c = true)
    (hb : ∀ c, body.getLast? = some c → isWS c = false) :
    ((w.reverse ++ body.reverse).dropWhile isWS).reverse = body := by
  rw [dropWhile_append_all w.reverse _ (fun c hc => hw c (List.mem_reverse.mp hc))]
  cases hrev : body.reverse with
  | nil => simp [List.reverse_eq_nil_iff.mp hrev]
  | cons r rt =>
    have hg : body.getLast? = some r := by
      rw [← List.head?_reverse body, hrev]
      rfl
    rw [List.dropWhile_cons, hb r hg]
    simp only [Bool.false_eq_true, if_false]
    rw [← hrev, List.reverse_reverse]

theorem take6_ne_of_not_startTag (s : List Char) (h : ¬ ("```csv".toList <+: s)) :
    s.take 6 ≠ "```csv".toList :=
  fun he => h (List.prefix_iff_eq_take.mpr he.symm)

theorem revTake3_ne_of_not_endFence (s : List Char) (h : ¬ ("```".toList <:+ s)) :
    s.reverse.take 3 ≠ "```".toList :=
  fun he => h (List.reverse_prefix.mp (List.prefix_iff_eq_take.mpr he.symm))

/-- Claim C4, amended: `stripFence` removes a leading opening fence
exactly when the text begins with the csv-tagged fence, together with
the whitespace run after it, and removes a trailing closing fence
exactly when the text ends with a triple-backtick fence, together with
the whitespace run before it; the two removals are independent.  A text
without the tagged fence at its very start — in particular one with an
untagged opening fence or with whitespace before the fence — keeps its
front, and a text whose closing fence is not at its very end — in
particular one with whitespace after it — keeps its tail; with neither
feature the text is returned unchanged.  The four conjuncts cover: both
fences present, only the tagged opening fence, only the closing fence,
and neither. -/
theorem claim_C4_amended :
    (∀ w₁ w₂ body : List Char, (∀ c ∈ w₁, isWS c = true) → (∀ c ∈ w₂, isWS c = true) →
      (∀ c, body.head? = some c → isWS c = false) →
      (∀ c, body.getLast? = some c → isWS c = false) →
      stripFence (String.mk ("```csv".toList ++ (w₁ ++ (body ++ (w₂ ++ "```".toList)))))
        = String.mk body)
    ∧ (∀ w body : List Char, (∀ c ∈ w, isWS c = true) →
      (∀ c, body.head? = some c → isWS c = false) →
      ¬ ("```".toList <:+ body) →
      stripFence (String.mk ("```csv".toList ++ (w ++ body))) = String.mk body)
    ∧ (∀ w body : List Char, (∀ c ∈ w, isWS c = true) →
      (∀ c, body.getLast? = some c → isWS c = false) →
      ¬ ("```csv".toList <+: (body ++ (w ++ "```".toList))) →
      stripFence (String.mk (body ++ (w ++ "```".toList))) = String.mk body)
    ∧ (∀ s : List Char, ¬ ("```csv".toList <+: s) → ¬ ("```".toList <:+ s) →
      stripFence (String.mk s) = String.mk s) := by
  refine ⟨?_, ?_, ?_, ?_⟩
  · intro w₁ w₂ body hw1 hw2 hb1 hb2
    show String.mk (stripFenceL ("```csv".toList ++ (w₁ ++ (body ++ (w₂ ++ "```".toList)))))
        = String.mk body
    congr 1
    rw [stripFenceL]
    rw [List.take_left' (show ("```csv".toList).length = 6 from rfl)]
    rw [if_pos rfl]
    rw [List.drop_left' (show ("```csv".toList).length = 6 from rfl)]
    cases body with
    | nil =>
      rw [show w₁ ++ (([] : List Char) ++ (w₂ ++ "```".toList))
          = (w₁ ++ w₂) ++ "```".toList from by simp]
      have hcomb : ∀ c ∈ w₁ ++ w₂, isWS c = true := by
        intro c hc
        rcases List.mem_append.mp hc with h | h
        · exact hw1 c h
        · exact hw2 c h
      have hhead : ∀ c, ("```".toList).head? = some c → isWS c = false := by
        intro c h
        simp only [show ("```".toList).head? = some '`' from rfl, Option.some.injEq] at h
        rw [← h]
        decide
      rw [stripFront (w₁ ++ w₂) ("```".toList) hcomb hhead]
      decide
    | cons b bt =>
      have hb : isWS b = false := hb1 b rfl
      have hX : ∀ c, ((b :: bt) ++ (w₂ ++ "```".toList)).head? = some c → isWS c = false := by
        intro c h
        rw [List.cons_append, List.head?_cons] at h
        injection h with h1
        rw [← h1]
        exact hb
      rw [stripFront w₁ _ hw1 hX]
      rw [show (b :: bt) ++ (w₂ ++ "```".toList) = ((b :: bt) ++ w₂) ++ "```".toList from by simp]
      rw [List.reverse_append]
      rw [show ("```".toList).reverse = "```".toList from rfl]
      rw [List.take_left' (show ("```".toList).length = 3 from rfl)]
      rw [if_pos rfl]
      rw [List.drop_left' (show ("```".toList).length = 3 from rfl)]
      rw [List.reverse_append]
      exact stripBack w₂ (b :: bt) hw2 hb2
  · intro w body hw hb1 hnf
    show String.mk (stripFenceL ("```csv".toList ++ (w ++ body))) = String.mk body
    congr 1
    rw [stripFenceL]
    rw [List.take_left' (show ("```csv".toList).length = 6 from rfl)]
    rw [if_pos rfl]
    rw [List.drop_left' (show ("```csv".toList).length = 6 from rfl)]
    rw [stripFront w body hw hb1]
    rw [if_neg (revTake3_ne_of_not_endFence body hnf)]
  · intro w body hw hb2 htag
    show String.mk (stripFenceL (body ++ (w ++ "```".toList))) = String.mk body
    congr 1
    rw [stripFenceL]
    rw [if_neg (take6_ne_of_not_startTag _ htag)]
    rw [show body ++ (w ++ "```".toList) = (body ++ w) ++ "```".toList from by simp]
    rw [List.reverse_append]
    rw [show ("```".toList).reverse = "```".toList from rfl]
    rw [List.take_left' (show ("```".toList).length = 3 from rfl)]
    rw [if_pos rfl]
    rw [List.drop_left' (show ("```".toList).length = 3 from rfl)]
    rw [List.reverse_append]
    exact stripBack w body hw hb2
  · intro s h6 h3
    show String.mk (stripFenceL s) = String.mk s
    congr 1
    rw [stripFenceL]
    rw [if_neg (take6_ne_of_not_startTag s h6)]
    rw [if_neg (revTake3_ne_of_not_endFence s h3)]

/-- Witness for the amended claim C4, exercising all four conjuncts: a
tagged fence pair around `"a,b"` is stripped to the body, a tagged
opening fence alone is stripped, a closing fence alone is stripped, and
a text with neither is returned unchanged. -/
theorem claim_C4_witness :
    (stripFence (String.mk ("```csv".toList ++ (['\n'] ++ ("a,b".toList ++ (['\n'] ++ "```".toList)))))
      = String.mk "a,b".toList)
    ∧ stripFence (String.mk ("```csv".toList ++ (['\n'] ++ "a,b".toList))) = String.mk "a,b".toList
    ∧ stripFence (String.mk ("a,b".toList ++ (['\n'] ++ "```".toList))) = String.mk "a,b".toList
    ∧ stripFence (String.mk " x ".toList) = String.mk " x ".toList :=
  ⟨claim_C4_amended.1 ['\n'] ['\n'] "a,b".toList (by decide) (by decide) (by decide) (by decide),
   claim_C4_amended.2.1 ['\n'] "a,b".toList (by decide) (by decide) (by decide),
   claim_C4_amended.2.2.1 ['\n'] "a,b".toList (by decide) (by decide) (by decide),
   claim_C4_amended.2.2.2 " x ".toList (by decide) (by decide)⟩

/-- Claim C6: when the completion service returns no text, the processed
table keeps its prior value, the prior displayed result is cleared, and
no error message is shown — in both files' process actions. -/
theorem claim_C6 (s : AppState) (p : Provider) (s' : Part000.AppState)
    (hkey : s.apiKey ≠ "") (h1 : s.file1Data ≠ []) (h2 : s.file2Data ≠ [])
    (hkey' : s'.apiKey ≠ "") (h1' : s'.file1Data ≠ []) (h2' : s'.file2Data ≠ []) :
    ((processWithAI s p (Except.ok "")).1.processedHeaders = s.processedHeaders ∧
     (processWithAI s p (Except.ok "")).1.processedData = s.processedData ∧
     (processWithAI s p (Except.ok "")).1.processedResult = none ∧
     (processWithAI s p (Except.ok "")).1.error = "") ∧
    ((Part000.processWithOpenAI s' (Except.ok "")).1.processedHeaders = s'.processedHeaders ∧
     (Part000.processWithOpenAI s' (Except.ok "")).1.processedData = s'.processedData ∧
     (Part000.processWithOpenAI s' (Except.ok "")).1.processedResult = none ∧
     (Part000.processWithOpenAI s' (Except.ok "")).1.error = "") := by
  constructor
  · simp [processWithAI, hkey, List.isEmpty_eq_false.mpr h1, List.isEmpty_eq_false.mpr h2]
  · simp [Part000.processWithOpenAI, hkey', List.isEmpty_eq_false.mpr h1',
      List.isEmpty_eq_false.mpr h2']

/-- Witness for claim C6 at concrete loaded states. -/
theorem claim_C6_witness :
    ((processWithAI sampleState Provider.gemini (Except.ok "")).1.processedHeaders
      = sampleState.processedHeaders ∧
     (processWithAI sampleState Provider.gemini (Except.ok "")).1.processedData
      = sampleState.processedData ∧
     (processWithAI sampleState Provider.gemini (Except.ok "")).1.processedResult = none ∧
     (processWithAI sampleState Provider.gemini (Except.ok "")).1.error = "") ∧
    ((Part000.processWithOpenAI samplePart000State (Except.ok "")).1.processedHeaders
      = samplePart000State.processedHeaders ∧
     (Part000.processWithOpenAI samplePart000State (Except.ok "")).1.processedData
      = samplePart000State.processedData ∧
     (Part000.processWithOpenAI samplePart000State (Except.ok "")).1.processedResult = none ∧
     (Part000.processWithOpenAI samplePart000State (Except.ok "")).1.error = "") :=
  claim_C6 sampleState Provider.gemini samplePart000State
    (by decide) (by decide) (by decide) (by decide) (by decide) (by decide)

/-- Claim C7: with no credential set, both process actions set only the
missing-key error message, change nothing else, and issue no completion
request. -/
theorem claim_C7 (s : AppState) (p : Provider) (resp : Except String String)
    (s' : Part000.AppState) (resp' : Except String String)
    (hkey : s.apiKey = "") (hkey' : s'.apiKey = "") :
    processWithAI s p resp
      = ({ s with error := "Please enter your " ++ providerUpper p ++ " API key first" }, [])
    ∧ Part000.processWithOpenAI s' resp'
      = ({ s' with error := "Please enter your OpenAI API key first" }, []) := by
  constructor
  · rw [processWithAI, if_pos hkey]
  · rw [Part000.processWithOpenAI, if_pos hkey']

/-- Witness for claim C7 at concrete states with an empty key. -/
theorem claim_C7_witness :
    processWithAI { sampleState with apiKey := "" } Provider.gemini (Except.ok "x")
      = ({ { sampleState with apiKey := "" } with
          error := "Please enter your " ++ providerUpper Provider.gemini ++ " API key first" }, [])
    ∧ Part000.processWithOpenAI { samplePart000State with apiKey := "" } (Except.ok "x")
      = ({ { samplePart000State with apiKey := "" } with
          error := "Please enter your OpenAI API key first" }, []) :=
  claim_C7 _ Provider.gemini _ _ _ rfl rfl

/-- Claim C8, counterexample.  The spec's Prompt Builder joins cells with
a comma and a space; `App.tsx` does so, but the unnamed file's inline
builder joins cells with a bare comma, so on the table with headers
`["a","b"]` its serialization differs from the claimed one. -/
theorem claim_C8_counterexample :
    formatData ["a", "b"] [] = "a, b" ∧
    Part000.serializeTable ["a", "b"] [] = "a,b" ∧
    Part000.serializeTable ["a", "b"] [] ≠ "a, b" :=
  ⟨by decide, by decide, by decide⟩

/-- Claim C8, amended: in each file, triggering the process action with
both files loaded and a credential present issues exactly one completion
request whose prompt contains that file's two serialized tables verbatim
inside that file's fixed instruction template; `App.tsx` joins cells with
a comma and a space, the unnamed file with a bare comma. -/
theorem claim_C8_amended (s : AppState) (p : Provider) (resp : Except String String)
    (s' : Part000.AppState) (resp' : Except String String)
    (hkey : s.apiKey ≠ "") (h1 : s.file1Data ≠ []) (h2 : s.file2Data ≠ [])
    (hkey' : s'.apiKey ≠ "") (h1' : s'.file1Data ≠ []) (h2' : s'.file2Data ≠ []) :
    (processWithAI s p resp).2
      = [promptIntro ++ formatData s.headers1 s.file1Data
          ++ promptBetween ++ formatData s.headers2 s.file2Data]
    ∧ (Part000.processWithOpenAI s' resp').2
      = [Part000.promptIntro ++ Part000.serializeTable s'.headers1 s'.file1Data
          ++ Part000.promptBetween ++ Part000.serializeTable s'.headers2 s'.file2Data] := by
  constructor
  · rcases resp with msg | r
    · simp [processWithAI, hkey, List.isEmpty_eq_false.mpr h1,
        List.isEmpty_eq_false.mpr h2, getPrompt]
    · by_cases hr : r = "" <;>
        simp [processWithAI, hkey, List.isEmpty_eq_false.mpr h1,
          List.isEmpty_eq_false.mpr h2, getPrompt, hr]
  · rcases resp' with msg | r
    · simp [Part000.processWithOpenAI, hkey', List.isEmpty_eq_false.mpr h1',
        List.isEmpty_eq_false.mpr h2']
    · by_cases hr : r = "" <;>
        simp [Part000.processWithOpenAI, hkey', List.isEmpty_eq_false.mpr h1',
          List.isEmpty_eq_false.mpr h2', hr]

/-- Witness for the amended claim C8 at concrete loaded states. -/
theorem claim_C8_witness :
    (processWithAI sampleState Provider.gemini (Except.error "e")).2
      = [promptIntro ++ formatData sampleState.headers1 sampleState.file1Data
          ++ promptBetween ++ formatData sampleState.headers2 sampleState.file2Data]
    ∧ (Part000.processWithOpenAI samplePart000State (Except.error "e")).2
      = [Part000.promptIntro
          ++ Part000.serializeTable samplePart000State.headers1 samplePart000State.file1Data
          ++ Part000.promptBetween
          ++ Part000.serializeTable samplePart000State.headers2 samplePart000State.file2Data] :=
  claim_C8_amended sampleState Provider.gemini (Except.error "e") samplePart000State
    (Except.error "e") (by decide) (by decide) (by decide) (by decide) (by decide) (by decide)

theorem part000_cellNonBlankJS_eq (row : List (List Char)) (j : Nat) :
    Part000.cellNonBlankJS row j = cellNonBlankJS row j := by
  cases h : row[j]? <;> simp [Part000.cellNonBlankJS, cellNonBlankJS, h]

theorem part000_colCheckJS_eq (data : List (List (List Char))) (j : Nat) :
    Part000.colCheckJS data j = colCheckJS data j := by
  simp only [Part000.colCheckJS, colCheckJS]
  exact any_congr_mem fun row _ => part000_cellNonBlankJS_eq row j

theorem part000_boundedFind_eq (p : Nat → Bool) (fuel : Nat) :
    ∀ k, Part000.boundedFind p fuel k = boundedFind p fuel k := by
  induction fuel with
  | zero => intro k; rfl
  | succ fuel ih =>
    intro k
    show (if p k then k else Part000.boundedFind p fuel (k + 1))
        = (if p k then k else boundedFind p fuel (k + 1))
    rw [ih]

theorem part000_removeLeadingBlankColumns_eq (data : List (List (List Char))) :
    Part000.removeLeadingBlankColumns data = removeLeadingBlankColumns data := by
  cases data with
  | nil => rfl
  | cons first rest =>
    simp only [Part000.removeLeadingBlankColumns, removeLeadingBlankColumns]
    have hk : Part000.boundedFind (Part000.colCheckJS (first :: rest)) first.length 0
        = boundedFind (colCheckJS (first :: rest)) first.length 0 := by
      rw [part000_boundedFind_eq]
      have hc : Part000.colCheckJS (first :: rest) = colCheckJS (first :: rest) := by
        funext j
        exact part000_colCheckJS_eq (first :: rest) j
      rw [hc]
    rw [hk]

/-- Claim C10: the CSV normalizers of the two source files are
extensionally equal — their definitions are translated separately from
the two files and agree on every input. -/
theorem claim_C10 : ∀ s : String, processCSV s = Part000.processCSV s := by
  intro s
  have hpl : Part000.parseLines = parseLines := rfl
  have hL : Part000.processCSVL s.toList = processCSVL s.toList := by
    simp only [Part000.processCSVL, processCSVL, tableOf, rawHeaders, rawRows, hpl]
    rw [part000_removeLeadingBlankColumns_eq]
  simp only [processCSV, Part000.processCSV]
  rw [hL]
